import Mathlib

/-!
Verification development for the JSONCodec module (src/JSONCodec.js): a
class-aware JSON serialization layer.  JavaScript values are embedded as
finite trees (`JVal`); classes and codecs are identified by indices into an
environment (`Env`).  The two traversals `processValue` (the inner worker of
`JSONCodec.prototype.stringify`) and `parseObject` (the inner worker of
`JSONCodec.prototype.parse`) are translated directly from the source.

Modelling conventions:
* The native JSON text encoder/decoder is an external collaborator; the
  round trip between data trees and text is treated as the identity on
  trees, so `stringify` produces the tree that `JSON.stringify` would
  serialize and `parse` consumes the tree that `JSON.parse` would produce.
* JavaScript objects are assoc lists of own enumerable string keys in
  insertion order.  The model does not represent `undefined` (not a JSON
  value; the `processed !== undefined` skip in the source is vacuous here),
  symbol keys, or the integer-index key reordering of JS property order.
* A delegated call `JSON.parse(targetCodec.stringify(value))` /
  `targetCodec.parse(JSON.stringify(value))` is a fresh top-level call on
  the target codec, so it is modelled as a recursive call with no parent
  class and no key, exactly as the source restarts its traversal.
* Plain objects are instances of the distinguished class
  `Env.objectClass` (the JS `Object` constructor); the source treats them
  uniformly through `Object.getPrototypeOf(value)?.constructor`.
-/

namespace JSONCodec

/-- Index of a class in the environment (class identity, as JS compares
constructors by reference). -/
abbrev ClassId := Nat

/-- Index of a codec (a `JSONCodec` instance) in the environment. -/
abbrev CodecId := Nat

/-- JavaScript value trees: primitives, arrays, and objects.  An object
carries the `ClassId` of its constructor and its own enumerable properties
in insertion order. -/
inductive JVal where
  | jnull : JVal
  | jbool (b : Bool) : JVal
  | jnum (n : Int) : JVal
  | jstr (s : String) : JVal
  | jarr (elems : List JVal) : JVal
  | jobj (cls : ClassId) (fields : List (String × JVal)) : JVal

/-- The static per-class state installed by `JSONCodec.Codec`: the class
name, the `propertyCodecs` map (`delegateProp`) and the `classCodecs` map
(`delegatesTo`).  Classes not built through the builder have empty maps
(optional chaining on `propertyCodecs` / `classCodecs` yields undefined). -/
structure ClassDesc where
  cname : String
  propertyCodecs : List (String × CodecId)
  classCodecs : List (ClassId × CodecId)
deriving DecidableEq, Repr

/-- The world: all class descriptors, the `classMap` (name to class) of
every codec, and the distinguished class of plain objects. -/
structure Env where
  classes : List ClassDesc
  codecs : List (List (String × ClassId))
  objectClass : ClassId
deriving DecidableEq, Repr

/-- Descriptor of a class (out-of-range ids behave as a blank class). -/
def Env.classDesc (env : Env) (c : ClassId) : ClassDesc :=
  env.classes.getD c ⟨"", [], []⟩

/-- The `classMap` of codec `k` (name to registered class). -/
def Env.classMap (env : Env) (k : CodecId) : List (String × ClassId) :=
  env.codecs.getD k []

/-- The `name` of class `c` (JS `constructor.name`). -/
def Env.cname (env : Env) (c : ClassId) : String :=
  (env.classDesc c).cname

/-- JS `Map.get` on an assoc list whose keys are unique. -/
def mapGet {α β : Type} [BEq α] (l : List (α × β)) (a : α) : Option β :=
  List.lookup a l

/-- The check `currentClass?.propertyCodecs?.has(key)` followed by `get`:
the property-delegation lookup.  With no parent class or no key (as at a
top-level call or for array elements) it never fires. -/
def propLookup (env : Env) (parent : Option ClassId) (key : Option String) :
    Option CodecId :=
  match parent, key with
  | some p, some s => mapGet (env.classDesc p).propertyCodecs s
  | _, _ => none

/-- The check `currentClass?.classCodecs?.has(constructor)` followed by
`get`: the class-delegation lookup used by `stringify` (keyed by class
identity). -/
def classLookup (env : Env) (parent : Option ClassId) (c : ClassId) :
    Option CodecId :=
  match parent with
  | some p => mapGet (env.classDesc p).classCodecs c
  | none => none

/-- JS property assignment `result[k] = v` on an object represented as an
assoc list: update in place if the key exists, append otherwise. -/
def setKey (l : List (String × JVal)) (s : String) (v : JVal) :
    List (String × JVal) :=
  match l with
  | [] => [(s, v)]
  | (s', v') :: rest =>
    if s' = s then (s, v) :: rest else (s', v') :: setKey rest s v

/-- The initial `result` object of the default serialization path:
`constructor && this.classMap.has(constructor.name) ? { _type: constructor.name } : {}`. -/
def tagBase (env : Env) (k : CodecId) (c : ClassId) : List (String × JVal) :=
  if (mapGet (env.classMap k) (env.cname c)).isSome then
    [("_type", JVal.jstr (env.cname c))]
  else []

/-- Rank of the traversal context: a delegated restart drops the parent
class and key, which is the decreasing component of the termination
measure when the value itself does not shrink. -/
def ctxRank (parent : Option ClassId) (key : Option String) : Nat :=
  if parent.isSome || key.isSome then 1 else 0

theorem ctxRank_none : ctxRank none none = 0 := rfl

theorem ctxRank_of_propLookup {env : Env} {parent : Option ClassId}
    {key : Option String} {t : CodecId}
    (h : propLookup env parent key = some t) : ctxRank parent key = 1 := by
  cases parent <;> cases key <;> simp [propLookup] at h <;> rfl

theorem ctxRank_of_classLookup {env : Env} {parent : Option ClassId}
    {key : Option String} {c : ClassId} {t : CodecId}
    (h : classLookup env parent c = some t) : ctxRank parent key = 1 := by
  cases parent <;> simp [classLookup] at h
  cases key <;> rfl

mutual
/-- The worker `processValue(value, key, currentClass)` of
`JSONCodec.prototype.stringify`.  Primitives pass through; arrays map over
elements with no context; objects are routed by property delegation, then
class delegation (each delegation being a fresh top-level `stringify` on
the target codec), then default handling: a `_type` tag if the codec has
the constructor name registered, then every own property processed with
the constructor as the new parent class.  The `seen` set of the source
(lines 160-163) tests object identity, which a tree cannot trip — every
node of a tree is a distinct object — so it is omitted here and studied
on the heap model (`processValueH` below), where identity is explicit. -/
def processValue (env : Env) (k : CodecId) (parent : Option ClassId)
    (key : Option String) : JVal → JVal
  | .jnull => .jnull
  | .jbool b => .jbool b
  | .jnum n => .jnum n
  | .jstr s => .jstr s
  | .jarr es => .jarr (processList env k es)
  | .jobj c fs =>
    match h1 : propLookup env parent key with
    | some t => processValue env t none none (.jobj c fs)
    | none =>
      match h2 : classLookup env parent c with
      | some t => processValue env t none none (.jobj c fs)
      | none => .jobj env.objectClass (processFields env k c fs (tagBase env k c))
termination_by v => 2 * sizeOf v + ctxRank parent key
decreasing_by
  all_goals simp_wf
  all_goals try omega
  all_goals rw [ctxRank_none]
  · rw [ctxRank_of_propLookup h1]; omega
  · rw [ctxRank_of_classLookup h2]; omega

/-- `value.map((v) => processValue(v))`: array elements are serialized with
no key and no parent class. -/
def processList (env : Env) (k : CodecId) : List JVal → List JVal
  | [] => []
  | v :: rest => processValue env k none none v :: processList env k rest
termination_by l => 2 * sizeOf l
decreasing_by
  all_goals simp_wf
  all_goals simp [ctxRank]
  all_goals omega

/-- The loop `for (const [k, v] of Object.entries(value)) result[k] = processValue(v, k, constructor)`
threaded over the accumulated `result` object. -/
def processFields (env : Env) (k : CodecId) (c : ClassId) :
    List (String × JVal) → List (String × JVal) → List (String × JVal)
  | [], acc => acc
  | (s, v) :: rest, acc =>
    processFields env k c rest (setKey acc s (processValue env k (some c) (some s) v))
termination_by l acc => 2 * sizeOf l
decreasing_by
  all_goals simp_wf
  all_goals simp [ctxRank]
  all_goals omega
end

/-- The codec method `stringify` (modulo the external JSON text encoding
and the optional replacer pass): a top-level call has no key and no
current class. -/
def stringify (env : Env) (k : CodecId) (v : JVal) : JVal :=
  processValue env k none none v

/-- Parse errors are surfaced as thrown error messages. -/
abbrev PErr := String

/-- The message of the unknown-type error thrown by `parse`. -/
def unknownTypeMsg (s : String) : String :=
  "Unknown type \"" ++ s ++ "\" in codec. Did you forget to register the class?"

/-- JS truthiness of a value (only JSON-representable values arise here). -/
def truthy : JVal → Bool
  | .jnull => false
  | .jbool b => b
  | .jnum n => n != 0
  | .jstr s => s != ""
  | .jarr _ => true
  | .jobj _ _ => true

/-- The test `if (value._type)`: the reserved key's value, if present, must
be truthy; an absent key reads as `undefined`, which is falsy. -/
def truthyTag : Option JVal → Bool
  | some v => truthy v
  | none => false

/-- Reads `value._type` from a parsed object. -/
def tagOf (fs : List (String × JVal)) : Option JVal :=
  mapGet fs "_type"

/-- The comparison `value._type === delegateClass.name`: strict equality of
the tag with a class name is possible only for string tags. -/
def nameMatches (env : Env) (tag : Option JVal) (c : ClassId) : Bool :=
  match tag with
  | some (.jstr s) => env.cname c == s
  | _ => false

/-- The loop `for (const [delegateClass, targetCodec] of parentClass.classCodecs)`
of `parse`: the first entry (in insertion order) whose class name equals
the tag wins. -/
def classDelegByName (env : Env) (parent : Option ClassId) (tag : Option JVal) :
    Option CodecId :=
  match parent with
  | none => none
  | some p =>
    ((env.classDesc p).classCodecs.find? (fun e => nameMatches env tag e.1)).map
      (fun e => e.2)

/-- The lookup `this.classMap.get(value._type)`: `classMap` keys are class
names, so only a string tag can resolve. -/
def tagClassLookup (env : Env) (k : CodecId) (tag : Option JVal) :
    Option ClassId :=
  match tag with
  | some (.jstr s) => mapGet (env.classMap k) s
  | _ => none

/-- Rendering of the tag inside the template literal of the unknown-type
error message.  Claims only exercise string tags; the rendering of the
remaining (truthy non-string) cases is a rough stand-in for JS string
coercion. -/
def tagRender : Option JVal → String
  | some (.jstr s) => s
  | some (.jnum n) => toString n
  | some (.jbool b) => toString b
  | some .jnull => "null"
  | some (.jarr _) => ""
  | some (.jobj _ _) => "[object Object]"
  | none => "undefined"

mutual
/-- The worker `parseObject(value, parentClass, key)` of
`JSONCodec.prototype.parse`.  Primitives pass through; arrays map over
elements with the parent class but no key; objects are routed by property
delegation first (a fresh top-level `parse` on the target codec, checked
before the tag is inspected), then, for truthy tags, by the parent class's
`classCodecs` entries matched by name, then resolved against this codec's
`classMap` (throwing the unknown-type error on a miss) into a bare
instance of the resolved class whose remaining keys are parsed with the
resolved class as the new parent; untagged objects are rebuilt as plain
objects with the outer parent class kept as context. -/
def parseObject (env : Env) (k : CodecId) (parent : Option ClassId)
    (key : Option String) : JVal → Except PErr JVal
  | .jnull => .ok .jnull
  | .jbool b => .ok (.jbool b)
  | .jnum n => .ok (.jnum n)
  | .jstr s => .ok (.jstr s)
  | .jarr es =>
    match parseList env k parent es with
    | .error e => .error e
    | .ok es' => .ok (.jarr es')
  | .jobj o fs =>
    match h1 : propLookup env parent key with
    | some t => parseObject env t none none (.jobj o fs)
    | none =>
      if ht : truthyTag (tagOf fs) then
        match h2 : classDelegByName env parent (tagOf fs) with
        | some t => parseObject env t none none (.jobj o fs)
        | none =>
          match tagClassLookup env k (tagOf fs) with
          | none => .error (unknownTypeMsg (tagRender (tagOf fs)))
          | some cls =>
            match parseFields env k (some cls) true fs with
            | .error e => .error e
            | .ok fs' => .ok (.jobj cls fs')
      else
        match parseFields env k parent false fs with
        | .error e => .error e
        | .ok fs' => .ok (.jobj env.objectClass fs')
termination_by v => 2 * sizeOf v + ctxRank parent key
decreasing_by
  all_goals simp_wf
  all_goals try omega
  all_goals rw [ctxRank_none]
  · rw [ctxRank_of_propLookup h1]; omega
  · cases parent with
    | none => simp [classDelegByName] at h2
    | some p => cases key <;> simp [ctxRank] <;> omega

/-- `value.map((v) => parseObject(v, parentClass))`: array elements are
parsed with the parent class but no key; the first thrown error aborts. -/
def parseList (env : Env) (k : CodecId) (parent : Option ClassId) :
    List JVal → Except PErr (List JVal)
  | [] => .ok []
  | v :: rest =>
    match parseObject env k parent none v with
    | .error e => .error e
    | .ok v' =>
      match parseList env k parent rest with
      | .error e => .error e
      | .ok rest' => .ok (v' :: rest')
termination_by l => 2 * sizeOf l
decreasing_by
  all_goals simp_wf
  all_goals unfold ctxRank
  all_goals split <;> omega

/-- The field walks of `parseObject`: with `skipTag` true this is
`const { _type, ...props } = value` followed by
`props[k] = parseObject(v, cls, k)` over the remaining keys in order (the
reserved key is skipped); with `skipTag` false it is the plain-object loop
`result[k] = parseObject(v, parentClass, k)` over every key. -/
def parseFields (env : Env) (k : CodecId) (parent : Option ClassId)
    (skipTag : Bool) : List (String × JVal) → Except PErr (List (String × JVal))
  | [] => .ok []
  | (s, v) :: rest =>
    if skipTag && s == "_type" then parseFields env k parent skipTag rest
    else
      match parseObject env k parent (some s) v with
      | .error e => .error e
      | .ok v' =>
        match parseFields env k parent skipTag rest with
        | .error e => .error e
        | .ok rest' => .ok ((s, v') :: rest')
termination_by l => 2 * sizeOf l
decreasing_by
  all_goals simp_wf
  all_goals try (unfold ctxRank; split <;> omega)
  all_goals omega
end

/-- The codec method `parse` (modulo the external JSON text decoding and
the optional reviver pass): a top-level call has no key and no parent
class. -/
def parse (env : Env) (k : CodecId) (v : JVal) : Except PErr JVal :=
  parseObject env k none none v

/-! ### Unfolding lemmas for the traversal routes

One lemma per branch of `processValue` / `parseObject` on objects; these
are the working form of the dependent matches above. -/

/-! ### Field-level helpers

`processFields` threads JS property assignment over an accumulator; when
the keys being written are fresh (as they are for any real JS object,
whose own keys are unique, none equal to the reserved key once a tag has
been written) the loop is an append of the element-wise serialization. -/

/-- Element-wise form of the serialization field loop. -/
def strFields (env : Env) (k : CodecId) (c : ClassId)
    (fs : List (String × JVal)) : List (String × JVal) :=
  fs.map (fun p => (p.1, processValue env k (some c) (some p.1) p.2))

/-- Keys of an object in order. -/
def keysOf (l : List (String × JVal)) : List String :=
  l.map Prod.fst

/-- No key of the object equals `s`. -/
def keyFree (s : String) : List (String × JVal) → Bool
  | [] => true
  | (s1, _) :: rest => (s1 != s) && keyFree s rest

/-- The object has no own property named `_type`. -/
def noTypeKey (l : List (String × JVal)) : Bool :=
  keyFree "_type" l

/-- The object's keys are pairwise distinct (always true of a JS object). -/
def nodupKeys : List (String × JVal) → Bool
  | [] => true
  | (s, _) :: rest => keyFree s rest && nodupKeys rest

theorem keyFree_iff (s : String) (l : List (String × JVal)) :
    keyFree s l = true ↔ ¬ s ∈ keysOf l := by
  induction l with
  | nil => simp [keyFree, keysOf]
  | cons p rest ih =>
    obtain ⟨s1, v1⟩ := p
    simp [keyFree, keysOf, bne_iff_ne] at ih ⊢
    constructor
    · rintro ⟨h1, h2⟩
      exact ⟨fun he => h1 he.symm, ih.mp h2⟩
    · rintro ⟨h1, h2⟩
      exact ⟨fun he => h1 he.symm, ih.mpr h2⟩

theorem setKey_fresh (s : String) (v : JVal) (acc : List (String × JVal))
    (h : keyFree s acc = true) : setKey acc s v = acc ++ [(s, v)] := by
  induction acc with
  | nil => rfl
  | cons p rest ih =>
    obtain ⟨s1, v1⟩ := p
    simp [keyFree, bne_iff_ne] at h
    simp [setKey, h.1, ih h.2]

theorem keyFree_append (s : String) (l1 l2 : List (String × JVal)) :
    keyFree s (l1 ++ l2) = (keyFree s l1 && keyFree s l2) := by
  induction l1 with
  | nil => simp [keyFree]
  | cons p rest ih =>
    obtain ⟨s1, v1⟩ := p
    simp [keyFree, ih, Bool.and_assoc]

theorem processFields_eq (env : Env) (k : CodecId) (c : ClassId)
    (fs acc : List (String × JVal)) (hnd : nodupKeys fs = true)
    (hdisj : ∀ s, ¬ keyFree s fs = true → keyFree s acc = true) :
    processFields env k c fs acc = acc ++ strFields env k c fs := by
  induction fs generalizing acc with
  | nil => simp [processFields, strFields]
  | cons p rest ih =>
    obtain ⟨s1, v1⟩ := p
    simp only [nodupKeys, Bool.and_eq_true] at hnd
    have hfresh : keyFree s1 acc = true := by
      apply hdisj
      simp [keyFree]
    have hdisj2 : ∀ s, ¬ keyFree s rest = true →
        keyFree s (acc ++ [(s1, processValue env k (some c) (some s1) v1)]) = true := by
      intro s hs
      rw [keyFree_append]
      have h1 : keyFree s acc = true := by
        apply hdisj
        simp only [keyFree, Bool.and_eq_true]
        intro hh
        exact hs hh.2
      have hne : (s1 != s) = true := by
        rw [bne_iff_ne]
        intro he
        subst he
        exact hs hnd.1
      simp [h1, keyFree, hne]
    rw [processFields, setKey_fresh _ _ _ hfresh, ih _ hnd.2 hdisj2]
    simp [strFields]

theorem keyFree_strFields (env : Env) (k : CodecId) (c : ClassId) (s : String)
    (fs : List (String × JVal)) :
    keyFree s (strFields env k c fs) = keyFree s fs := by
  induction fs with
  | nil => rfl
  | cons p rest ih =>
    obtain ⟨s1, v1⟩ := p
    simp [strFields, keyFree] at ih ⊢
    rw [ih]

theorem mapGet_eq_none_of_keyFree (l : List (String × JVal)) (s : String)
    (h : keyFree s l = true) : mapGet l s = none := by
  induction l with
  | nil => rfl
  | cons p rest ih =>
    obtain ⟨s1, v1⟩ := p
    simp [keyFree, bne_iff_ne] at h
    have hbeq : (s == s1) = false := beq_eq_false_iff_ne.mpr (fun he => h.1 he.symm)
    simp only [mapGet, List.lookup, hbeq]
    exact ih h.2

theorem tagOf_cons_tag (x : JVal) (l : List (String × JVal)) :
    tagOf (("_type", x) :: l) = some x := by
  simp [tagOf, mapGet, List.lookup]

theorem tagOf_of_noType (l : List (String × JVal)) (h : noTypeKey l = true) :
    tagOf l = none :=
  mapGet_eq_none_of_keyFree l "_type" h

theorem processValue_prim (env : Env) (k : CodecId) (parent : Option ClassId)
    (key : Option String) :
    processValue env k parent key .jnull = .jnull ∧
    (∀ b, processValue env k parent key (.jbool b) = .jbool b) ∧
    (∀ n, processValue env k parent key (.jnum n) = .jnum n) ∧
    (∀ s, processValue env k parent key (.jstr s) = .jstr s) := by
  refine ⟨?_, ?_, ?_, ?_⟩ <;> intros <;> simp [processValue]

theorem processValue_arr (env : Env) (k : CodecId) (parent : Option ClassId)
    (key : Option String) (es : List JVal) :
    processValue env k parent key (.jarr es) = .jarr (processList env k es) := by
  simp [processValue]

theorem processValue_prop {env : Env} {parent : Option ClassId}
    {key : Option String} {t : CodecId} (k : CodecId) (c : ClassId)
    (fs : List (String × JVal)) (h1 : propLookup env parent key = some t) :
    processValue env k parent key (.jobj c fs) =
    processValue env t none none (.jobj c fs) := by
  rw [processValue.eq_def]
  repeat (split <;> simp_all)

theorem processValue_class {env : Env} {parent : Option ClassId}
    {key : Option String} {t : CodecId} (k : CodecId) {c : ClassId}
    (fs : List (String × JVal)) (h1 : propLookup env parent key = none)
    (h2 : classLookup env parent c = some t) :
    processValue env k parent key (.jobj c fs) =
    processValue env t none none (.jobj c fs) := by
  rw [processValue.eq_def]
  repeat (split <;> simp_all)

theorem processValue_default {env : Env} {parent : Option ClassId}
    {key : Option String} (k : CodecId) {c : ClassId}
    (fs : List (String × JVal)) (h1 : propLookup env parent key = none)
    (h2 : classLookup env parent c = none) :
    processValue env k parent key (.jobj c fs) =
    .jobj env.objectClass (processFields env k c fs (tagBase env k c)) := by
  rw [processValue.eq_def]
  repeat (split <;> simp_all)

theorem processValue_root (env : Env) (k : CodecId) (c : ClassId)
    (fs : List (String × JVal)) :
    processValue env k none none (.jobj c fs) =
    .jobj env.objectClass (processFields env k c fs (tagBase env k c)) :=
  processValue_default k fs rfl rfl

theorem parseObject_prim (env : Env) (k : CodecId) (parent : Option ClassId)
    (key : Option String) :
    parseObject env k parent key .jnull = .ok .jnull ∧
    (∀ b, parseObject env k parent key (.jbool b) = .ok (.jbool b)) ∧
    (∀ n, parseObject env k parent key (.jnum n) = .ok (.jnum n)) ∧
    (∀ s, parseObject env k parent key (.jstr s) = .ok (.jstr s)) := by
  refine ⟨?_, ?_, ?_, ?_⟩ <;> intros <;> simp [parseObject]

theorem parseObject_arr (env : Env) (k : CodecId) (parent : Option ClassId)
    (key : Option String) (es : List JVal) :
    parseObject env k parent key (.jarr es) =
    match parseList env k parent es with
    | .error e => .error e
    | .ok es2 => .ok (.jarr es2) := by
  simp [parseObject]

theorem parseObject_prop {env : Env} {parent : Option ClassId}
    {key : Option String} {t : CodecId} (k : CodecId) (o : ClassId)
    (fs : List (String × JVal)) (h1 : propLookup env parent key = some t) :
    parseObject env k parent key (.jobj o fs) =
    parseObject env t none none (.jobj o fs) := by
  rw [parseObject.eq_def]
  repeat (split <;> simp_all)

theorem parseObject_deleg {env : Env} {parent : Option ClassId}
    {key : Option String} {t : CodecId} (k : CodecId) (o : ClassId)
    {fs : List (String × JVal)} (h1 : propLookup env parent key = none)
    (ht : truthyTag (tagOf fs) = true)
    (h2 : classDelegByName env parent (tagOf fs) = some t) :
    parseObject env k parent key (.jobj o fs) =
    parseObject env t none none (.jobj o fs) := by
  rw [parseObject.eq_def]
  repeat (split <;> simp_all)

theorem parseObject_tagged {env : Env} {k : CodecId} {parent : Option ClassId}
    {key : Option String} {cls : ClassId} (o : ClassId)
    {fs : List (String × JVal)} (h1 : propLookup env parent key = none)
    (ht : truthyTag (tagOf fs) = true)
    (h2 : classDelegByName env parent (tagOf fs) = none)
    (hc : tagClassLookup env k (tagOf fs) = some cls) :
    parseObject env k parent key (.jobj o fs) =
    match parseFields env k (some cls) true fs with
    | .error e => .error e
    | .ok fs2 => .ok (.jobj cls fs2) := by
  rw [parseObject.eq_def]
  repeat (split <;> simp_all)

theorem parseObject_unknown {env : Env} {k : CodecId} {parent : Option ClassId}
    {key : Option String} (o : ClassId)
    {fs : List (String × JVal)} (h1 : propLookup env parent key = none)
    (ht : truthyTag (tagOf fs) = true)
    (h2 : classDelegByName env parent (tagOf fs) = none)
    (hc : tagClassLookup env k (tagOf fs) = none) :
    parseObject env k parent key (.jobj o fs) =
    .error (unknownTypeMsg (tagRender (tagOf fs))) := by
  rw [parseObject.eq_def]
  repeat (split <;> simp_all)

theorem parseObject_plain {env : Env} {k : CodecId} {parent : Option ClassId}
    {key : Option String} (o : ClassId)
    {fs : List (String × JVal)} (h1 : propLookup env parent key = none)
    (ht : truthyTag (tagOf fs) = false) :
    parseObject env k parent key (.jobj o fs) =
    match parseFields env k parent false fs with
    | .error e => .error e
    | .ok fs2 => .ok (.jobj env.objectClass fs2) := by
  rw [parseObject.eq_def]
  repeat (split <;> simp_all)

/-! ### Well-formedness for the round trip

The serializer and the parser walk the tree with contexts that can
diverge: the serializer always passes the immediate constructor as parent
class (and nothing into array elements), while the parser keeps the outer
class as context across untagged objects and array elements.  `wfVal`
requires the routing decisions of the two walks to agree, every class to
be registered back to itself (under a nonempty name) in the codec that
handles it, unique own keys, and no collision with the reserved key. -/

/-- Class `c` is registered in codec `t`: the class name resolves back to
`c` itself and the name is nonempty (hence a truthy tag). -/
def registeredAs (env : Env) (t : CodecId) (c : ClassId) : Bool :=
  (mapGet (env.classMap t) (env.cname c) == some c) && (env.cname c != "")

mutual
/-- Round-trip well-formedness of a value handled by codec `k`, where the
serializer sees parent context `sP` and the parser sees `pP`, both at
property key `key`. -/
def wfVal (env : Env) (k : CodecId) (sP pP : Option ClassId)
    (key : Option String) : JVal → Bool
  | .jnull => true
  | .jbool _ => true
  | .jnum _ => true
  | .jstr _ => true
  | .jarr es => wfList env k pP es
  | .jobj c fs =>
    noTypeKey fs && nodupKeys fs &&
    ((propLookup env sP key).elim
      ((propLookup env pP key == none) &&
       ((classLookup env sP c).elim
         ((mapGet (env.classMap k) (env.cname c)).elim
           ((c == env.objectClass) && wfPlainFields env k pP fs)
           (fun c2 =>
             (c2 == c) && (env.cname c != "") &&
             (classDelegByName env pP (some (.jstr (env.cname c))) == none) &&
             wfFields env k c fs))
         (fun t =>
           registeredAs env t c &&
           (classDelegByName env pP (some (.jstr (env.cname c))) == some t) &&
           wfFields env t c fs)))
      (fun t =>
        (propLookup env pP key == some t) && registeredAs env t c &&
        wfFields env t c fs))
termination_by v => sizeOf v

/-- Array elements: the serializer passes no context, the parser passes
the parent class with no key. -/
def wfList (env : Env) (k : CodecId) (pP : Option ClassId) : List JVal → Bool
  | [] => true
  | v :: rest => wfVal env k none pP none v && wfList env k pP rest
termination_by l => sizeOf l

/-- Fields of an instance of class `c` handled by codec `t`: both walks use
`c` as parent context. -/
def wfFields (env : Env) (t : CodecId) (c : ClassId) :
    List (String × JVal) → Bool
  | [] => true
  | (sk, v) :: rest =>
    wfVal env t (some c) (some c) (some sk) v && wfFields env t c rest
termination_by l => sizeOf l

/-- Fields of a plain object: the serializer uses the plain-object class as
parent, the parser keeps the outer context `pP`. -/
def wfPlainFields (env : Env) (k : CodecId) (pP : Option ClassId) :
    List (String × JVal) → Bool
  | [] => true
  | (sk, v) :: rest =>
    wfVal env k (some env.objectClass) pP (some sk) v &&
    wfPlainFields env k pP rest
termination_by l => sizeOf l
end

/-- Round trip of a tagged default-path serialization, assuming the round
trip of its field walk: parsing it in any context that neither property-
nor class-delegates it reconstructs the instance. -/
theorem rt_tagged_of (env : Env) (t : CodecId) (pP : Option ClassId)
    (key : Option String) (c : ClassId) (fs : List (String × JVal))
    (hpp : propLookup env pP key = none)
    (hcd : classDelegByName env pP (some (.jstr (env.cname c))) = none)
    (hreg : registeredAs env t c = true)
    (hfRT : parseFields env t (some c) true (strFields env t c fs) = .ok fs) :
    parseObject env t pP key
      (.jobj env.objectClass
        (("_type", JVal.jstr (env.cname c)) :: strFields env t c fs)) =
    .ok (.jobj c fs) := by
  simp only [registeredAs, Bool.and_eq_true, beq_iff_eq, bne_iff_ne] at hreg
  rw [parseObject_tagged env.objectClass hpp
    (by rw [tagOf_cons_tag]; simp [truthyTag, truthy, bne_iff_ne, hreg.2])
    (by rw [tagOf_cons_tag]; exact hcd)
    (by rw [tagOf_cons_tag]; simp only [tagClassLookup]; exact hreg.1)]
  rw [parseFields]
  rw [hfRT]
  simp

/-- Round-trip statement for values of size at most `n`. -/
def rtStmtVal (n : Nat) : Prop :=
  ∀ (env : Env) (k : CodecId) (sP pP : Option ClassId) (key : Option String)
    (v : JVal), sizeOf v ≤ n → wfVal env k sP pP key v = true →
    parseObject env k pP key (processValue env k sP key v) = .ok v

/-- Round-trip statement for tagged-instance field walks of size at most `n`. -/
def rtStmtFields (n : Nat) : Prop :=
  ∀ (env : Env) (t : CodecId) (c : ClassId) (fs : List (String × JVal)),
    sizeOf fs ≤ n → noTypeKey fs = true → wfFields env t c fs = true →
    parseFields env t (some c) true (strFields env t c fs) = .ok fs

/-- Round-trip statement for plain-object field walks of size at most `n`. -/
def rtStmtPlain (n : Nat) : Prop :=
  ∀ (env : Env) (k : CodecId) (pP : Option ClassId) (fs : List (String × JVal)),
    sizeOf fs ≤ n → wfPlainFields env k pP fs = true →
    parseFields env k pP false (strFields env k env.objectClass fs) = .ok fs

/-- Round-trip statement for arrays of size at most `n`. -/
def rtStmtList (n : Nat) : Prop :=
  ∀ (env : Env) (k : CodecId) (pP : Option ClassId) (es : List JVal),
    sizeOf es ≤ n → wfList env k pP es = true →
    parseList env k pP (processList env k es) = .ok es

/-- All four round-trip statements, by strong induction on the size bound. -/
theorem rtAll : ∀ n, rtStmtVal n ∧ rtStmtFields n ∧ rtStmtPlain n ∧ rtStmtList n := by
  intro n
  induction n using Nat.strong_induction_on with
  | _ n IH =>
    refine ⟨?val, ?fields, ?plain, ?list⟩
    case fields =>
      intro env t c fs hsz hnt hfs
      cases fs with
      | nil => simp [strFields, parseFields]
      | cons p rest =>
        obtain ⟨s1, v1⟩ := p
        simp only [noTypeKey, keyFree, Bool.and_eq_true, bne_iff_ne] at hnt
        rw [wfFields] at hfs
        simp only [Bool.and_eq_true] at hfs
        have hne : (s1 == "_type") = false := beq_eq_false_iff_ne.mpr hnt.1
        have hszv : sizeOf v1 < n := by
          have : sizeOf v1 < sizeOf ((s1, v1) :: rest) := by simp <;> omega
          omega
        have hszr : sizeOf rest < n := by
          have : sizeOf rest < sizeOf ((s1, v1) :: rest) := by simp <;> omega
          omega
        simp only [strFields, List.map]
        rw [parseFields]
        rw [(IH (sizeOf v1) hszv).1 env t (some c) (some c) (some s1) v1 le_rfl hfs.1]
        have hrest := (IH (sizeOf rest) hszr).2.1 env t c rest le_rfl hnt.2 hfs.2
        simp only [strFields] at hrest
        rw [hrest]
        simp [hne]
    case plain =>
      intro env k pP fs hsz hpf
      cases fs with
      | nil => simp [strFields, parseFields]
      | cons p rest =>
        obtain ⟨s1, v1⟩ := p
        rw [wfPlainFields] at hpf
        simp only [Bool.and_eq_true] at hpf
        have hszv : sizeOf v1 < n := by
          have : sizeOf v1 < sizeOf ((s1, v1) :: rest) := by simp <;> omega
          omega
        have hszr : sizeOf rest < n := by
          have : sizeOf rest < sizeOf ((s1, v1) :: rest) := by simp <;> omega
          omega
        simp only [strFields, List.map]
        rw [parseFields]
        rw [(IH (sizeOf v1) hszv).1 env k (some env.objectClass) pP (some s1) v1 le_rfl hpf.1]
        have hrest := (IH (sizeOf rest) hszr).2.2.1 env k pP rest le_rfl hpf.2
        simp only [strFields] at hrest
        rw [hrest]
        simp
    case list =>
      intro env k pP es hsz h
      cases es with
      | nil => simp [processList, parseList]
      | cons v rest =>
        rw [wfList] at h
        simp only [Bool.and_eq_true] at h
        have hszv : sizeOf v < n := by
          have : sizeOf v < sizeOf (v :: rest) := by simp <;> omega
          omega
        have hszr : sizeOf rest < n := by
          have : sizeOf rest < sizeOf (v :: rest) := by simp <;> omega
          omega
        rw [processList, parseList]
        rw [(IH (sizeOf v) hszv).1 env k none pP none v le_rfl h.1]
        rw [(IH (sizeOf rest) hszr).2.2.2 env k pP rest le_rfl h.2]
    case val =>
      intro env k sP pP key v hsz h
      cases v with
      | jnull => simp [processValue, parseObject]
      | jbool b => simp [processValue, parseObject]
      | jnum m => simp [processValue, parseObject]
      | jstr st => simp [processValue, parseObject]
      | jarr es =>
        have h2 : wfList env k pP es = true := by simpa [wfVal] using h
        have hszl : sizeOf es < n := by
          have : sizeOf es < sizeOf (JVal.jarr es) := by simp
          omega
        rw [processValue_arr, parseObject_arr,
          (IH (sizeOf es) hszl).2.2.2 env k pP es le_rfl h2]
      | jobj c fs =>
        rw [wfVal] at h
        simp only [Bool.and_eq_true] at h
        have hnt : noTypeKey fs = true := h.1.1
        have hnd : nodupKeys fs = true := h.1.2
        have hroute := h.2
        clear h
        have hszf : sizeOf fs < n := by
          have : sizeOf fs < sizeOf (JVal.jobj c fs) := by simp <;> omega
          omega
        have hd1 : ∀ s, ¬ keyFree s fs = true →
            keyFree s [("_type", JVal.jstr (env.cname c))] = true := by
          intro s hs
          simp only [keyFree, Bool.and_true, bne_iff_ne]
          intro he
          rw [← he] at hs
          exact hs hnt
        revert hroute
        cases hsp : propLookup env sP key with
        | some t =>
          intro hroute
          simp only [Option.elim, Bool.and_eq_true, beq_iff_eq] at hroute
          obtain ⟨⟨hpp, hreg⟩, hfs⟩ := hroute
          have htb : tagBase env t c = [("_type", JVal.jstr (env.cname c))] := by
            simp only [registeredAs, Bool.and_eq_true, beq_iff_eq] at hreg
            simp [tagBase, hreg.1]
          rw [processValue_prop k c fs hsp, processValue_root, htb,
            processFields_eq env t c fs _ hnd hd1]
          simp only [List.singleton_append]
          rw [parseObject_prop k env.objectClass _ hpp]
          exact rt_tagged_of env t none none c fs rfl rfl hreg
            ((IH (sizeOf fs) hszf).2.1 env t c fs le_rfl hnt hfs)
        | none =>
          intro hroute
          simp only [Option.elim, Bool.and_eq_true, beq_iff_eq] at hroute
          obtain ⟨hppn, hrest⟩ := hroute
          revert hrest
          cases hsc : classLookup env sP c with
          | some t =>
            intro hrest
            simp only [Option.elim, Bool.and_eq_true, beq_iff_eq] at hrest
            obtain ⟨⟨hreg, hcdel⟩, hfs⟩ := hrest
            have htb : tagBase env t c = [("_type", JVal.jstr (env.cname c))] := by
              simp only [registeredAs, Bool.and_eq_true, beq_iff_eq] at hreg
              simp [tagBase, hreg.1]
            have hcne : env.cname c ≠ "" := by
              simp only [registeredAs, Bool.and_eq_true, bne_iff_ne] at hreg
              exact hreg.2
            rw [processValue_class k fs hsp hsc, processValue_root, htb,
              processFields_eq env t c fs _ hnd hd1]
            simp only [List.singleton_append]
            rw [parseObject_deleg k env.objectClass hppn
              (by rw [tagOf_cons_tag]; simp [truthyTag, truthy, bne_iff_ne, hcne])
              (by rw [tagOf_cons_tag]; exact hcdel)]
            exact rt_tagged_of env t none none c fs rfl rfl hreg
              ((IH (sizeOf fs) hszf).2.1 env t c fs le_rfl hnt hfs)
          | none =>
            intro hrest
            revert hrest
            cases hm : mapGet (env.classMap k) (env.cname c) with
            | some c2 =>
              intro hrest
              simp only [Option.elim, Bool.and_eq_true, beq_iff_eq, bne_iff_ne] at hrest
              obtain ⟨⟨⟨hc2, hcne⟩, hcd0⟩, hfs⟩ := hrest
              have hreg : registeredAs env k c = true := by
                simp only [registeredAs, Bool.and_eq_true, beq_iff_eq, bne_iff_ne]
                exact ⟨by rw [hm, hc2], hcne⟩
              have htb : tagBase env k c = [("_type", JVal.jstr (env.cname c))] := by
                simp [tagBase, hm]
              rw [processValue_default k fs hsp hsc, htb,
                processFields_eq env k c fs _ hnd hd1]
              simp only [List.singleton_append]
              exact rt_tagged_of env k pP key c fs hppn (by simpa using hcd0) hreg
                ((IH (sizeOf fs) hszf).2.1 env k c fs le_rfl hnt hfs)
            | none =>
              intro hrest
              simp only [Option.elim, Bool.and_eq_true, beq_iff_eq] at hrest
              obtain ⟨hobj, hpf⟩ := hrest
              have htb : tagBase env k c = [] := by
                simp [tagBase, hm]
              rw [processValue_default k fs hsp hsc, htb,
                processFields_eq env k c fs _ hnd (by intro s hs; rfl)]
              simp only [List.nil_append]
              have htg : tagOf (strFields env k c fs) = none := by
                apply mapGet_eq_none_of_keyFree
                rw [keyFree_strFields]
                exact hnt
              rw [parseObject_plain env.objectClass hppn (by rw [htg]; rfl)]
              rw [hobj]
              rw [(IH (sizeOf fs) hszf).2.2.1 env k pP fs le_rfl hpf]

/-- Round trip at one value: parsing the serialized form with the parser
context of a well-formed value recovers the value exactly. -/
theorem rt_val (env : Env) (k : CodecId) (sP pP : Option ClassId)
    (key : Option String) (v : JVal) (h : wfVal env k sP pP key v = true) :
    parseObject env k pP key (processValue env k sP key v) = .ok v :=
  (rtAll (sizeOf v)).1 env k sP pP key v le_rfl h

/-! ### Claim C1: round trip -/

/-- C1 (amended): for every tree-shaped acyclic graph satisfying the
round-trip well-formedness predicate `wfVal` (no shared references — each
node is one object; no own `_type` property anywhere; unique keys; every
instance's class registered back to itself under a nonempty name in the
codec handling it; serialization and parse routing decisions agree),
`registry.parse(registry.stringify(x))` returns exactly `x`: in
particular every originally-typed instance is reconstructed as an
instance of its original class with recursively value-equal own
properties. -/
theorem c1_roundtrip (env : Env) (k : CodecId) (v : JVal)
    (h : wfVal env k none none none v = true) :
    parse env k (stringify env k v) = .ok v :=
  rt_val env k none none none v h

/-- Environment of the C1 witness: the three-codec Drawing example of the
test suite (Shape in `shapeCodec`, Color in `colorCodec`, Drawing in
`mainCodec` with both class delegations and the `specialColor` property
delegation). -/
def envC1 : Env :=
  { classes :=
      [⟨"Shape", [], []⟩,
       ⟨"Color", [], []⟩,
       ⟨"Drawing", [("specialColor", 2)], [(0, 1), (1, 2)]⟩,
       ⟨"Object", [], []⟩]
    codecs := [[("Drawing", 2)], [("Shape", 0)], [("Color", 1)]]
    objectClass := 3 }

/-- A Drawing instance with a delegated shape, a delegated color, a
property-delegated special color, a plain-object note and an array. -/
def vC1 : JVal :=
  .jobj 2
    [("shape", .jobj 0 [("x", .jnum 10), ("y", .jnum 20)]),
     ("color", .jobj 1 [("r", .jnum 255)]),
     ("specialColor", .jobj 1 [("g", .jnum 128)]),
     ("name", .jstr "My Drawing"),
     ("meta", .jobj 3 [("note", .jbool true)]),
     ("tags", .jarr [.jnum 1, .jnull])]

/-- Witness for C1: the Drawing graph is well-formed and round-trips. -/
theorem c1_roundtrip_witness :
    wfVal envC1 0 none none none vC1 = true ∧
    parse envC1 0 (stringify envC1 0 vC1) = .ok vC1 := by
  have hwf : wfVal envC1 0 none none none vC1 = true := by
    simp [vC1, envC1, wfVal, wfFields, wfList, wfPlainFields, propLookup,
      classLookup, classDelegByName, nameMatches, registeredAs, mapGet,
      Env.classMap, Env.cname, Env.classDesc, noTypeKey, nodupKeys, keyFree,
      List.lookup, List.find?]
  exact ⟨hwf, c1_roundtrip envC1 0 vC1 hwf⟩

/-- Environment of the C1 counterexample: a single codec with the class
`Shape` registered. -/
def envC1x : Env :=
  { classes := [⟨"Shape", [], []⟩, ⟨"Object", [], []⟩]
    codecs := [[("Shape", 0)]]
    objectClass := 1 }

/-- Counterexample to C1 as stated: the graph consisting of the single
plain object with own property `_type` holding the string "Shape"
(allowed by the claim: it is built of plain objects and primitives only)
does not round trip — it comes back as a Shape instance with no
properties, so the result is not value-equal to the input and contains an
instance where the input had a plain object. -/
theorem c1_counterexample :
    parse envC1x 0
      (stringify envC1x 0 (.jobj 1 [("_type", .jstr "Shape")])) =
      .ok (.jobj 0 []) ∧
    JVal.jobj 0 [] ≠ .jobj 1 [("_type", .jstr "Shape")] := by
  constructor
  · simp [envC1x, parse, stringify, processValue, processFields, parseObject,
      parseFields, propLookup, classLookup, classDelegByName, nameMatches,
      tagBase, tagOf, truthyTag, truthy, tagClassLookup, mapGet, Env.classMap,
      Env.cname, Env.classDesc, setKey, List.lookup]
  · simp

/-! ### Claim C3: delegation precedence -/

/-- C3: when all three routes are available for an object under its parent
class (a `propertyCodecs` entry for the key, a `classCodecs` entry for the
class, and a registration in the current codec), property delegation wins
in both `stringify` and `parse`; in `parse` the `propertyCodecs` check is
made before the tag is inspected (the property route fires for every
`fs`, tagged or not); and with the property route absent, class
delegation wins over the available default route in both directions. -/
theorem c3_precedence (env : Env) (k : CodecId) (parent : Option ClassId)
    (key : Option String) (c o : ClassId) (fs : List (String × JVal))
    (t t2 : CodecId)
    (hprop : propLookup env parent key = some t)
    (hclass : classLookup env parent c = some t2)
    (hdef : (mapGet (env.classMap k) (env.cname c)).isSome = true) :
    (processValue env k parent key (.jobj c fs) =
      processValue env t none none (.jobj c fs)) ∧
    (parseObject env k parent key (.jobj o fs) =
      parseObject env t none none (.jobj o fs)) ∧
    (∀ key2, propLookup env parent key2 = none →
      processValue env k parent key2 (.jobj c fs) =
      processValue env t2 none none (.jobj c fs)) ∧
    (∀ key2, propLookup env parent key2 = none →
      truthyTag (tagOf fs) = true →
      classDelegByName env parent (tagOf fs) = some t2 →
      parseObject env k parent key2 (.jobj o fs) =
      parseObject env t2 none none (.jobj o fs)) := by
  refine ⟨processValue_prop k c fs hprop, parseObject_prop k o fs hprop,
    fun key2 h2 => processValue_class k fs h2 hclass,
    fun key2 h2 ht hcd => parseObject_deleg k o h2 ht hcd⟩

/-- Environment of the C3 witness: parent class 2 delegates property "p"
to codec 1 and class 0 (named "B") to codec 2, while codec 0 also has "B"
registered — all three routes are simultaneously available. -/
def envC3 : Env :=
  { classes := [⟨"B", [], []⟩, ⟨"T1", [], []⟩, ⟨"P", [("p", 1)], [(0, 2)]⟩,
                ⟨"Object", [], []⟩]
    codecs := [[("B", 0)], [], []]
    objectClass := 3 }

/-- Witness for C3 at a concrete object where all three routes apply. -/
theorem c3_precedence_witness :
    (processValue envC3 0 (some 2) (some "p") (.jobj 0 [("_type", .jstr "B")]) =
      processValue envC3 1 none none (.jobj 0 [("_type", .jstr "B")])) ∧
    (parseObject envC3 0 (some 2) (some "p") (.jobj 0 [("_type", .jstr "B")]) =
      parseObject envC3 1 none none (.jobj 0 [("_type", .jstr "B")])) ∧
    (processValue envC3 0 (some 2) (some "q") (.jobj 0 [("_type", .jstr "B")]) =
      processValue envC3 2 none none (.jobj 0 [("_type", .jstr "B")])) ∧
    (parseObject envC3 0 (some 2) (some "q") (.jobj 0 [("_type", .jstr "B")]) =
      parseObject envC3 2 none none (.jobj 0 [("_type", .jstr "B")])) := by
  have h := c3_precedence envC3 0 (some 2) (some "p") 0 0
    [("_type", JVal.jstr "B")] 1 2
    (by simp [envC3, propLookup, mapGet, Env.classDesc, List.lookup])
    (by simp [envC3, classLookup, mapGet, Env.classDesc, List.lookup])
    (by simp [envC3, mapGet, Env.classMap, Env.cname, Env.classDesc, List.lookup])
  refine ⟨h.1, h.2.1, h.2.2.1 (some "q") ?hq, h.2.2.2 (some "q") ?hq2 ?ht ?hcd⟩
  case hq => simp [envC3, propLookup, mapGet, Env.classDesc, List.lookup]
  case hq2 => simp [envC3, propLookup, mapGet, Env.classDesc, List.lookup]
  case ht => simp [tagOf, mapGet, List.lookup, truthyTag, truthy]
  case hcd =>
    simp [envC3, classDelegByName, nameMatches, tagOf, mapGet, List.lookup,
      Env.cname, Env.classDesc, List.find?]

/-! ### Claim C6: unknown type error -/

/-- C6: a tagged object whose (truthy, string) tag matches no
`classDelegates` entry of the parent class and is absent from the
resolving codec's `classMap` makes `parse` throw the unknown-type error,
whose message names the tag. -/
theorem c6_unknown_type (env : Env) (k : CodecId) (parent : Option ClassId)
    (key : Option String) (o : ClassId) (fs : List (String × JVal))
    (s : String)
    (h1 : propLookup env parent key = none)
    (htag : tagOf fs = some (.jstr s)) (hne : s ≠ "")
    (hcd : classDelegByName env parent (tagOf fs) = none)
    (hcm : mapGet (env.classMap k) s = none) :
    parseObject env k parent key (.jobj o fs) = .error (unknownTypeMsg s) ∧
    ∃ pre post, unknownTypeMsg s = pre ++ s ++ post := by
  constructor
  · rw [parseObject_unknown o h1
      (by rw [htag]; simp [truthyTag, truthy, bne_iff_ne, hne]) hcd
      (by rw [htag]; simp [tagClassLookup, hcm])]
    rw [htag]
    rfl
  · exact ⟨"Unknown type \"", "\" in codec. Did you forget to register the class?", rfl⟩

/-- Environment of the C6 witness: a codec with nothing registered. -/
def envC6 : Env :=
  { classes := [⟨"Object", [], []⟩]
    codecs := [[]]
    objectClass := 0 }

/-- Witness for C6: parsing the document of `{"_type":"Ghost"}` against a
registry that never registered a class tagged Ghost throws the
unknown-type error naming Ghost. -/
theorem c6_unknown_type_witness :
    parseObject envC6 0 none none (.jobj 0 [("_type", .jstr "Ghost")]) =
      .error (unknownTypeMsg "Ghost") ∧
    ∃ pre post, unknownTypeMsg "Ghost" = pre ++ "Ghost" ++ post :=
  c6_unknown_type envC6 0 none none 0 [("_type", JVal.jstr "Ghost")] "Ghost"
    rfl (by simp [tagOf, mapGet, List.lookup]) (by decide) rfl rfl

/-! ### Claim C7: tagged instance construction -/

/-- Specification of the tagged-path field walk: on success the reserved
key is gone, the remaining keys are the input keys in order, and every
output entry is the recursive parse (with the resolved class as parent)
of an input entry. -/
theorem parseFields_skip_spec (env : Env) (k : CodecId) (pc : Option ClassId)
    (fs fs2 : List (String × JVal))
    (h : parseFields env k pc true fs = .ok fs2) :
    keyFree "_type" fs2 = true ∧
    keysOf fs2 = (keysOf fs).filter (fun s2 => s2 != "_type") ∧
    ∀ p ∈ fs2, ∃ v, (p.1, v) ∈ fs ∧
      parseObject env k pc (some p.1) v = .ok p.2 := by
  induction fs generalizing fs2 with
  | nil =>
    rw [parseFields] at h
    cases h
    exact ⟨rfl, rfl, by simp⟩
  | cons p rest ih =>
    obtain ⟨s1, v1⟩ := p
    rw [parseFields] at h
    by_cases hs1 : (s1 == "_type") = true
    · rw [if_pos (by simp [hs1])] at h
      obtain ⟨h1, h2, h3⟩ := ih fs2 h
      refine ⟨h1, ?_, ?_⟩
      · simp only [keysOf, List.map, List.filter]
        have hb : (s1 != "_type") = false := by simp [bne, hs1]
        rw [hb]
        simpa [keysOf] using h2
      · intro q hq
        obtain ⟨v, hv, hp⟩ := h3 q hq
        exact ⟨v, by simp [hv], hp⟩
    · rw [if_neg (by simp [hs1])] at h
      revert h
      cases hpv : parseObject env k pc (some s1) v1 with
      | error e => intro h; cases h
      | ok v2 =>
        intro h
        revert h
        cases hrest : parseFields env k pc true rest with
        | error e => intro h; cases h
        | ok rest2 =>
          intro h
          cases h
          obtain ⟨h1, h2, h3⟩ := ih rest2 hrest
          refine ⟨?_, ?_, ?_⟩
          · simp only [keyFree, Bool.and_eq_true]
            exact ⟨by simpa using hs1, h1⟩
          · simp only [keysOf, List.map, List.filter]
            have : (s1 != "_type") = true := by simpa using hs1
            rw [this]
            simpa [keysOf] using h2
          · intro q hq
            rcases List.mem_cons.mp hq with hq1 | hq2
            · subst hq1
              exact ⟨v1, by simp, hpv⟩
            · obtain ⟨v, hv, hp⟩ := h3 q hq2
              exact ⟨v, by simp [hv], hp⟩

/-- C7: when `parse` resolves a tag to a registered class, the result is
built as a bare instance of that class (`Object.create` + property
assignment, no constructor execution): it carries the resolved class, its
properties are exactly the non-reserved keys of the document, each
recursively parsed with the resolved class as the new parent context, and
the reserved key is not among them. -/
theorem c7_instance_construction (env : Env) (k : CodecId)
    (parent : Option ClassId) (key : Option String) (o : ClassId)
    (fs : List (String × JVal)) (s : String) (cls : ClassId)
    (h1 : propLookup env parent key = none)
    (htag : tagOf fs = some (.jstr s)) (hne : s ≠ "")
    (hcd : classDelegByName env parent (tagOf fs) = none)
    (hcm : mapGet (env.classMap k) s = some cls) :
    parseObject env k parent key (.jobj o fs) =
      (match parseFields env k (some cls) true fs with
       | .error e => .error e
       | .ok fs2 => .ok (.jobj cls fs2)) ∧
    ∀ fs2, parseFields env k (some cls) true fs = .ok fs2 →
      mapGet fs2 "_type" = none ∧
      keysOf fs2 = (keysOf fs).filter (fun s2 => s2 != "_type") ∧
      ∀ p ∈ fs2, ∃ v, (p.1, v) ∈ fs ∧
        parseObject env k (some cls) (some p.1) v = .ok p.2 := by
  constructor
  · exact parseObject_tagged o h1
      (by rw [htag]; simp [truthyTag, truthy, bne_iff_ne, hne]) hcd
      (by rw [htag]; simp [tagClassLookup, hcm])
  · intro fs2 h
    obtain ⟨hf, hk, hv⟩ := parseFields_skip_spec env k (some cls) fs fs2 h
    exact ⟨mapGet_eq_none_of_keyFree fs2 "_type" hf, hk, hv⟩

/-- Witness for C7 on a concrete Shape document. -/
theorem c7_instance_construction_witness :
    (parseObject envC1x 0 none none
      (.jobj 1 [("_type", .jstr "Shape"), ("x", .jnum 5)]) =
      match parseFields envC1x 0 (some 0) true
          [("_type", .jstr "Shape"), ("x", .jnum 5)] with
      | .error e => .error e
      | .ok fs2 => .ok (.jobj 0 fs2)) ∧
    ∀ fs2, parseFields envC1x 0 (some 0) true
        [("_type", .jstr "Shape"), ("x", .jnum 5)] = .ok fs2 →
      mapGet fs2 "_type" = none ∧
      keysOf fs2 =
        (keysOf [("_type", JVal.jstr "Shape"), ("x", JVal.jnum 5)]).filter
          (fun s2 => s2 != "_type") ∧
      ∀ p ∈ fs2, ∃ v, (p.1, v) ∈
          [("_type", JVal.jstr "Shape"), ("x", JVal.jnum 5)] ∧
        parseObject envC1x 0 (some 0) (some p.1) v = .ok p.2 :=
  c7_instance_construction envC1x 0 none none 1
    [("_type", JVal.jstr "Shape"), ("x", JVal.jnum 5)] "Shape" 0
    rfl (by simp [tagOf, mapGet, List.lookup]) (by decide) rfl
    (by simp [envC1x, mapGet, Env.classMap, List.lookup])

/-! ### Claim C10: falsy reserved key -/

/-- Specification of the plain-path field walk: on success the keys are
unchanged and the value stored under each key is the recursive parse of
the input value under that key. -/
theorem parseFields_plain_spec (env : Env) (k : CodecId)
    (parent : Option ClassId) (fs fs2 : List (String × JVal))
    (h : parseFields env k parent false fs = .ok fs2) :
    keysOf fs2 = keysOf fs ∧
    ∀ s v, mapGet fs s = some v → ∃ v2, mapGet fs2 s = some v2 ∧
      parseObject env k parent (some s) v = .ok v2 := by
  induction fs generalizing fs2 with
  | nil =>
    rw [parseFields] at h
    cases h
    exact ⟨rfl, by simp [mapGet, List.lookup]⟩
  | cons p rest ih =>
    obtain ⟨s1, v1⟩ := p
    rw [parseFields] at h
    rw [if_neg (by simp)] at h
    revert h
    cases hpv : parseObject env k parent (some s1) v1 with
    | error e => intro h; cases h
    | ok v2 =>
      intro h
      revert h
      cases hrest : parseFields env k parent false rest with
      | error e => intro h; cases h
      | ok rest2 =>
        intro h
        cases h
        obtain ⟨h1, h2⟩ := ih rest2 hrest
        refine ⟨by simp [keysOf] at h1 ⊢; exact h1, ?_⟩
        intro s v hv
        by_cases hs : (s == s1) = true
        · simp only [mapGet, List.lookup, hs] at hv ⊢
          cases hv
          exact ⟨v2, rfl, by rw [show s = s1 from by simpa using hs]; exact hpv⟩
        · simp only [mapGet, List.lookup, Bool.not_eq_true] at hv ⊢
          rw [Bool.not_eq_true] at hs
          rw [hs] at hv ⊢
          exact h2 s v hv

/-- C10: an object whose reserved key holds a falsy value (empty string,
zero, false, null) is treated as an untagged plain object: the plain path
is taken (no tag lookup, no unknown-type error at this node), every key
including the reserved one is recursed into as plain data, and on success
the falsy tag value is kept unchanged as an ordinary property. -/
theorem c10_falsy_tag (env : Env) (k : CodecId) (parent : Option ClassId)
    (key : Option String) (o : ClassId) (fs : List (String × JVal))
    (tv : JVal)
    (h1 : propLookup env parent key = none)
    (htag : tagOf fs = some tv) (hf : truthy tv = false) :
    parseObject env k parent key (.jobj o fs) =
      (match parseFields env k parent false fs with
       | .error e => .error e
       | .ok fs2 => .ok (.jobj env.objectClass fs2)) ∧
    parseObject env k parent (some "_type") tv = .ok tv ∧
    ∀ fs2, parseFields env k parent false fs = .ok fs2 →
      keysOf fs2 = keysOf fs ∧ mapGet fs2 "_type" = some tv := by
  have hid : parseObject env k parent (some "_type") tv = .ok tv := by
    cases tv with
    | jnull => simp [parseObject]
    | jbool b => simp [parseObject]
    | jnum n => simp [parseObject]
    | jstr st => simp [parseObject]
    | jarr es => simp [truthy] at hf
    | jobj c2 fs3 => simp [truthy] at hf
  refine ⟨parseObject_plain o h1 (by rw [htag]; simpa [truthyTag] using hf),
    hid, ?_⟩
  intro fs2 h
  obtain ⟨h1k, h2k⟩ := parseFields_plain_spec env k parent fs fs2 h
  refine ⟨h1k, ?_⟩
  obtain ⟨v2, hv2, hpv2⟩ := h2k "_type" tv htag
  rw [hid] at hpv2
  cases hpv2
  exact hv2

/-- Witness for C10: a document whose `_type` holds the empty string
parses as a plain object keeping the key. -/
theorem c10_falsy_tag_witness :
    (parseObject envC1x 0 none none
      (.jobj 1 [("_type", .jstr ""), ("a", .jnum 1)]) =
      match parseFields envC1x 0 none false
          [("_type", .jstr ""), ("a", .jnum 1)] with
      | .error e => .error e
      | .ok fs2 => .ok (.jobj envC1x.objectClass fs2)) ∧
    parseObject envC1x 0 none (some "_type") (.jstr "") = .ok (.jstr "") ∧
    ∀ fs2, parseFields envC1x 0 none false
        [("_type", .jstr ""), ("a", .jnum 1)] = .ok fs2 →
      keysOf fs2 = keysOf [("_type", JVal.jstr ""), ("a", JVal.jnum 1)] ∧
      mapGet fs2 "_type" = some (.jstr "") :=
  c10_falsy_tag envC1x 0 none none 1
    [("_type", JVal.jstr ""), ("a", JVal.jnum 1)] (.jstr "")
    rfl (by simp [tagOf, mapGet, List.lookup]) (by decide)

/-! ### Claim C8: array elements and delegation context -/

/-- The serialization of an array is the element-wise serialization with
no key and no parent class. -/
theorem processList_map (env : Env) (k : CodecId) (es : List JVal) :
    processList env k es = es.map (fun e => processValue env k none none e) := by
  induction es with
  | nil => rw [processList]; rfl
  | cons v rest ih => rw [processList, ih]; rfl

/-- C8 (amended): in `stringify`, array elements are traversed with no
delegation context at all (no parent class, no key).  In `parse`, array
elements inherit the parent class as context but no key, so
`propertyDelegates` can never apply to an element (the key lookup is
impossible without a key) but `classDelegates` of the enclosing class do
apply to tagged elements. -/
theorem c8_array_context (env : Env) (k : CodecId) (parent : Option ClassId)
    (key : Option String) (es : List JVal) :
    (processValue env k parent key (.jarr es) =
      .jarr (es.map (fun e => processValue env k none none e))) ∧
    (parseObject env k parent key (.jarr es) =
      match parseList env k parent es with
      | .error e => .error e
      | .ok es2 => .ok (.jarr es2)) ∧
    (∀ e rest, parseList env k parent (e :: rest) =
      match parseObject env k parent none e with
      | .error e2 => .error e2
      | .ok v2 =>
        match parseList env k parent rest with
        | .error e2 => .error e2
        | .ok rest2 => .ok (v2 :: rest2)) ∧
    propLookup env parent none = none := by
  refine ⟨?_, parseObject_arr env k parent key es, ?_, ?_⟩
  · rw [processValue_arr, processList_map]
  · intro e rest
    rw [parseList]
  · cases parent <;> rfl

/-- Environment of the C8 counterexample: class 0 and class 1 are both
named "B"; codec 0 maps "B" to class 0, codec 1 maps "B" to class 1;
class 2 delegates class 0 to codec 1. -/
def envC8 : Env :=
  { classes := [⟨"B", [], []⟩, ⟨"B", [], []⟩, ⟨"P", [], [(0, 1)]⟩,
                ⟨"Object", [], []⟩]
    codecs := [[("B", 0)], [("B", 1)]]
    objectClass := 3 }

/-- Counterexample to C8 as stated: parsing the same one-element array of
a tagged object under parent class 2 routes the element through the
parent's `classDelegates` (codec 1, producing an instance of class 1),
while parsing it with no parent context resolves it in codec 0
(producing an instance of class 0) — delegation context does flow into
array elements during `parse`. -/
theorem c8_counterexample :
    parseObject envC8 0 (some 2) none (.jarr [.jobj 3 [("_type", .jstr "B")]]) =
      .ok (.jarr [.jobj 1 []]) ∧
    parseObject envC8 0 none none (.jarr [.jobj 3 [("_type", .jstr "B")]]) =
      .ok (.jarr [.jobj 0 []]) ∧
    (Except.ok (JVal.jarr [.jobj 1 []]) : Except PErr JVal) ≠
      .ok (.jarr [.jobj 0 []]) := by
  refine ⟨?_, ?_, by simp⟩
  · simp [envC8, parseObject, parseList, parseFields, propLookup,
      classDelegByName, nameMatches, tagOf, truthyTag, truthy, tagClassLookup,
      mapGet, Env.classMap, Env.cname, Env.classDesc, List.lookup, List.find?]
  · simp [envC8, parseObject, parseList, parseFields, propLookup,
      classDelegByName, nameMatches, tagOf, truthyTag, truthy, tagClassLookup,
      mapGet, Env.classMap, Env.cname, Env.classDesc, List.lookup, List.find?]

/-! ### Claim C5: builder finalization registers with every home codec -/

/-- Generic JS `Map.set`: update in place if the key exists, append
otherwise. -/
def mapSet {β : Type} (l : List (String × β)) (s : String) (b : β) :
    List (String × β) :=
  match l with
  | [] => [(s, b)]
  | (s1, b1) :: rest =>
    if s1 = s then (s, b) :: rest else (s1, b1) :: mapSet rest s b

theorem mapSet_get_self {β : Type} (l : List (String × β)) (s : String)
    (b : β) : mapGet (mapSet l s b) s = some b := by
  induction l with
  | nil => simp [mapSet, mapGet, List.lookup]
  | cons p rest ih =>
    obtain ⟨s1, b1⟩ := p
    by_cases hs : s1 = s
    · simp [mapSet, hs, mapGet, List.lookup]
    · have hbeq : (s == s1) = false :=
        beq_eq_false_iff_ne.mpr (fun he => hs he.symm)
      simp only [mapSet, if_neg hs, mapGet, List.lookup, hbeq]
      exact ih

/-- The mutable state of one codec: its `classMap`. -/
structure CodecState where
  classMap : List (String × ClassId)

/-- The codec method `register(cls)`:
`this.classMap.set(cls.name, cls); return this`. -/
def registerClass (st : CodecState) (name : String) (cid : ClassId) :
    CodecState :=
  ⟨mapSet st.classMap name cid⟩

/-- The builder finalization `static register()`:
`this.codecs.forEach((codec) => codec.register(this))` — the class being
finalized is registered with every codec in the builder's registry list,
in order. -/
def builderRegister (codecs : List CodecId) (name : String) (cid : ClassId)
    (store : CodecId → CodecState) : CodecId → CodecState :=
  codecs.foldl
    (fun st j => fun i => if i = j then registerClass (st j) name cid else st i)
    store

theorem builderRegister_cons (j : CodecId) (rest : List CodecId)
    (name : String) (cid : ClassId) (store : CodecId → CodecState) :
    builderRegister (j :: rest) name cid store =
    builderRegister rest name cid
      (fun i => if i = j then registerClass (store j) name cid else store i) :=
  rfl

theorem builderRegister_preserves (codecs : List CodecId) (name : String)
    (cid : ClassId) (store : CodecId → CodecState) (k : CodecId)
    (h : mapGet (store k).classMap name = some cid) :
    mapGet ((builderRegister codecs name cid store) k).classMap name = some cid := by
  induction codecs generalizing store with
  | nil => exact h
  | cons j rest ih =>
    rw [builderRegister_cons]
    apply ih
    by_cases hk : k = j
    · rw [hk]
      simp [registerClass, mapSet_get_self]
    · simp only [if_neg hk]
      exact h

/-- C5: finalizing a class through the builder invokes `register` on every
home codec in the builder's registry list, and each such codec ends up
mapping the finalized class's `name` to the class in its `classMap`. -/
theorem c5_finalize_registers (codecs : List CodecId) (name : String)
    (cid : ClassId) (store : CodecId → CodecState) (k : CodecId)
    (hk : k ∈ codecs) :
    mapGet ((builderRegister codecs name cid store) k).classMap name = some cid := by
  induction codecs generalizing store with
  | nil => cases hk
  | cons j rest ih =>
    rw [builderRegister_cons]
    by_cases hkr : k ∈ rest
    · exact ih _ hkr
    · have hkj : k = j := by
        rcases List.mem_cons.mp hk with h1 | h2
        · exact h1
        · exact absurd h2 hkr
      apply builderRegister_preserves
      rw [hkj]
      simp [registerClass, mapSet_get_self]

/-- Witness for C5: finalizing a class named Shape against two codecs maps
Shape in both. -/
theorem c5_finalize_registers_witness :
    (0 ∈ [0, 1]) ∧ (1 ∈ [0, 1]) ∧
    mapGet ((builderRegister [0, 1] "Shape" 7 (fun _ => ⟨[]⟩)) 0).classMap
      "Shape" = some 7 ∧
    mapGet ((builderRegister [0, 1] "Shape" 7 (fun _ => ⟨[]⟩)) 1).classMap
      "Shape" = some 7 :=
  ⟨by simp, by simp,
    c5_finalize_registers [0, 1] "Shape" 7 (fun _ => ⟨[]⟩) 0 (by simp),
    c5_finalize_registers [0, 1] "Shape" 7 (fun _ => ⟨[]⟩) 1 (by simp)⟩

/-! ### Claim C4: ambiguous multi-home-codec property (spec-modelled)

The auto-delegation inference pass is described in spec.md section 4.2 and
referenced by the repository (examples/JSONCodec.js: "Color ... gets
auto-delegated", "Shape ... with multiple codecs requires delegation by
users"), but its implementation is not among the source files under src/
(the `static register()` there performs registration only).  The
definitions below are modelled from the spec. -/

/-- The configuration error of a failed inference: names the offending
property and the ambiguous class. -/
structure ConfigError where
  prop : String
  clsName : String
deriving DecidableEq, Repr

/-- The builder's delegation state at finalization time. -/
structure BuilderState where
  codecs : List CodecId
  propertyCodecs : List (String × CodecId)
  classCodecs : List (ClassId × CodecId)

/-- Modelled from the spec: auto-delegation inference for one own property
(spec section 4.2, not present under src/).  A property already covered by
an explicit `propertyDelegates` entry is skipped; a non-object value is
skipped; an explicit `classDelegates` entry for the value's class is
copied; a single home codec is auto-adopted; two or more home codecs are
ambiguous and fail with a configuration error naming the property and the
class; an unregistered class is left unset. -/
def inferProp (homes : ClassId → List CodecId) (cname : ClassId → String)
    (b : BuilderState) (p : String) (vcls : Option ClassId) :
    Except ConfigError (Option CodecId) :=
  if (mapGet b.propertyCodecs p).isSome then .ok none
  else
    match vcls with
    | none => .ok none
    | some c =>
      match List.lookup c b.classCodecs with
      | some t => .ok (some t)
      | none =>
        match homes c with
        | [t] => .ok (some t)
        | [] => .ok none
        | _ => .error ⟨p, cname c⟩

/-- Modelled from the spec: the inference pass over every own property of
a representative instance (each property given with the class of its
value, `none` for non-objects), accumulating inferred `propertyDelegates`
entries. -/
def inferAll (homes : ClassId → List CodecId) (cname : ClassId → String)
    (b : BuilderState) :
    List (String × Option ClassId) → Except ConfigError BuilderState
  | [] => .ok b
  | (p, vc) :: rest =>
    match inferProp homes cname b p vc with
    | .error e => .error e
    | .ok none => inferAll homes cname b rest
    | .ok (some t) =>
      inferAll homes cname
        { b with propertyCodecs := b.propertyCodecs ++ [(p, t)] } rest

/-- Modelled from the spec: finalization runs inference and only then
registers the class with every home codec. -/
def finalizeBuilder (homes : ClassId → List CodecId)
    (cname : ClassId → String) (b : BuilderState)
    (props : List (String × Option ClassId)) (name : String) (cid : ClassId)
    (store : CodecId → CodecState) :
    Except ConfigError (BuilderState × (CodecId → CodecState)) :=
  match inferAll homes cname b props with
  | .error e => .error e
  | .ok b2 => .ok (b2, builderRegister b2.codecs name cid store)

theorem inferAll_append (homes : ClassId → List CodecId)
    (cname : ClassId → String) (b : BuilderState)
    (l1 l2 : List (String × Option ClassId)) :
    inferAll homes cname b (l1 ++ l2) =
    match inferAll homes cname b l1 with
    | .error e => .error e
    | .ok b1 => inferAll homes cname b1 l2 := by
  induction l1 generalizing b with
  | nil => simp [inferAll]
  | cons q rest ih =>
    obtain ⟨p, vc⟩ := q
    simp only [List.cons_append, inferAll]
    cases inferProp homes cname b p vc with
    | error e => rfl
    | ok r =>
      cases r with
      | none => exact ih b
      | some t => exact ih _

/-- C4 (spec-modelled): finalizing a class with an own property whose
value's class declares two or more home codecs, with no explicit override
for the property or for the class (and earlier properties inferring
fine), fails with a configuration error naming the offending property
and the ambiguous class, and never returns a successful registration. -/
theorem c4_ambiguous_fails (homes : ClassId → List CodecId)
    (cname : ClassId → String) (b b1 : BuilderState)
    (pre post : List (String × Option ClassId)) (p : String) (c : ClassId)
    (name : String) (cid : ClassId) (store : CodecId → CodecState)
    (hpre : inferAll homes cname b pre = .ok b1)
    (hp1 : mapGet b1.propertyCodecs p = none)
    (hcd : List.lookup c b1.classCodecs = none)
    (hhm : 2 ≤ (homes c).length) :
    inferAll homes cname b (pre ++ (p, some c) :: post) =
      .error ⟨p, cname c⟩ ∧
    ∀ r, finalizeBuilder homes cname b (pre ++ (p, some c) :: post)
      name cid store ≠ .ok r := by
  have hstep : inferProp homes cname b1 p (some c) = .error ⟨p, cname c⟩ := by
    simp only [inferProp, hp1, hcd, Option.isSome_none, Bool.false_eq_true,
      if_false]
    cases hh : homes c with
    | nil => rw [hh] at hhm; simp at hhm
    | cons t1 ts =>
      cases ts with
      | nil => rw [hh] at hhm; simp at hhm
      | cons t2 ts2 => rfl
  have hfail : inferAll homes cname b (pre ++ (p, some c) :: post) =
      .error ⟨p, cname c⟩ := by
    rw [inferAll_append, hpre]
    simp only [inferAll, hstep]
  refine ⟨hfail, fun r hr => ?_⟩
  rw [finalizeBuilder, hfail] at hr
  cases hr

/-- Witness for C4: a class with one property "shape" holding an instance
of the class Multi that has two home codecs and no override. -/
theorem c4_ambiguous_fails_witness :
    inferAll (fun _ => [1, 2]) (fun _ => "Multi") ⟨[0], [], []⟩
      ([] ++ ("shape", some 0) :: []) = .error ⟨"shape", "Multi"⟩ ∧
    ∀ r, finalizeBuilder (fun _ => [1, 2]) (fun _ => "Multi") ⟨[0], [], []⟩
      ([] ++ ("shape", some 0) :: []) "D" 9 (fun _ => ⟨[]⟩) ≠ .ok r :=
  c4_ambiguous_fails (fun _ => [1, 2]) (fun _ => "Multi") ⟨[0], [], []⟩
    ⟨[0], [], []⟩ [] [] "shape" 0 "D" 9 (fun _ => ⟨[]⟩)
    rfl rfl rfl (by simp)

/-! ### Claim C2: cycle detection and the seen set (heap model)

The tree model cannot express two references to the same object, so the
`seen` WeakSet of `stringify` is studied on a heap model: values are
primitives or addresses into a heap of objects/arrays.  `processValueH`
mirrors `processValue` line by line: the address is tested against `seen`
and added before anything else (`seen.has` / `seen.add`, lines 160-163 of
the source — never removed afterwards); arrays, property delegation,
class delegation and default handling follow; a delegated call is a fresh
`stringify` invocation with a fresh `seen` set, and the caller's set is
kept.  `fuel` is a model artifact bounding recursion depth (`none` = out
of fuel); the source relies on the JS call stack. -/

/-- Heap-model values: primitives or references. -/
inductive HVal where
  | hnull : HVal
  | hbool (b : Bool) : HVal
  | hnum (n : Int) : HVal
  | hstr (s : String) : HVal
  | href (a : Nat) : HVal
deriving DecidableEq, Repr

/-- Heap cells: arrays or objects with a class and fields. -/
inductive HCell where
  | harr (elems : List HVal) : HCell
  | hobj (cls : ClassId) (fields : List (String × HVal)) : HCell
deriving DecidableEq, Repr

/-- The heap: cell at each address. -/
abbrev Heap := List HCell

/-- The circular-structure error message of `stringify`. -/
def circularMsg : String := "Converting circular structure to JSON"

mutual
/-- Heap model of `processValue`: returns the produced tree and the
updated `seen` set, the circular error, or `none` when out of fuel. -/
def processValueH (env : Env) (heap : Heap) :
    Nat → List Nat → CodecId → Option ClassId → Option String → HVal →
    Option (Except String (JVal × List Nat))
  | 0, _, _, _, _, _ => none
  | _ + 1, seen, _, _, _, .hnull => some (.ok (.jnull, seen))
  | _ + 1, seen, _, _, _, .hbool b => some (.ok (.jbool b, seen))
  | _ + 1, seen, _, _, _, .hnum n => some (.ok (.jnum n, seen))
  | _ + 1, seen, _, _, _, .hstr s => some (.ok (.jstr s, seen))
  | fuel + 1, seen, k, parent, key, .href a =>
    if a ∈ seen then some (.error circularMsg)
    else
      match heap.getD a (.hobj 0 []) with
      | .harr es =>
        match processListH env heap fuel (a :: seen) k es with
        | none => none
        | some (.error e) => some (.error e)
        | some (.ok (ts, seen2)) => some (.ok (.jarr ts, seen2))
      | .hobj c fs =>
        match propLookup env parent key with
        | some t =>
          match processValueH env heap fuel [] t none none (.href a) with
          | none => none
          | some (.error e) => some (.error e)
          | some (.ok (tr, _)) => some (.ok (tr, a :: seen))
        | none =>
          match classLookup env parent c with
          | some t =>
            match processValueH env heap fuel [] t none none (.href a) with
            | none => none
            | some (.error e) => some (.error e)
            | some (.ok (tr, _)) => some (.ok (tr, a :: seen))
          | none =>
            match processFieldsH env heap fuel (a :: seen) k c fs
                (tagBase env k c) with
            | none => none
            | some (.error e) => some (.error e)
            | some (.ok (res, seen2)) =>
              some (.ok (.jobj env.objectClass res, seen2))
termination_by fuel _ _ _ _ _ => (fuel, 0)

/-- Heap model of the array element map, threading `seen`. -/
def processListH (env : Env) (heap : Heap) :
    Nat → List Nat → CodecId → List HVal →
    Option (Except String (List JVal × List Nat))
  | _, seen, _, [] => some (.ok ([], seen))
  | fuel, seen, k, v :: rest =>
    match processValueH env heap fuel seen k none none v with
    | none => none
    | some (.error e) => some (.error e)
    | some (.ok (t, seen2)) =>
      match processListH env heap fuel seen2 k rest with
      | none => none
      | some (.error e) => some (.error e)
      | some (.ok (ts, seen3)) => some (.ok (t :: ts, seen3))
termination_by fuel _ _ l => (fuel, sizeOf l + 1)

/-- Heap model of the field loop, threading `seen` and the accumulated
result object. -/
def processFieldsH (env : Env) (heap : Heap) :
    Nat → List Nat → CodecId → ClassId → List (String × HVal) →
    List (String × JVal) → Option (Except String (List (String × JVal) × List Nat))
  | _, seen, _, _, [], acc => some (.ok (acc, seen))
  | fuel, seen, k, c, (s, v) :: rest, acc =>
    match processValueH env heap fuel seen k (some c) (some s) v with
    | none => none
    | some (.error e) => some (.error e)
    | some (.ok (t, seen2)) =>
      processFieldsH env heap fuel seen2 k c rest (setKey acc s t)
termination_by fuel _ _ _ l _ => (fuel, sizeOf l + 1)
end

/-- Environment of the C2 failing input: one codec, nothing registered. -/
def envC2 : Env :=
  { classes := [⟨"Object", [], []⟩]
    codecs := [[]]
    objectClass := 0 }

/-- The C2 failing heap: address 0 holds an empty plain object, address 1
holds the root whose fields x and y both reference address 0.  The graph
is acyclic (the shared cell has no outgoing references) and the shared
object is a non-ancestor reachable from two sibling branches. -/
def heapC2 : Heap :=
  [.hobj 0 [], .hobj 0 [("x", .href 0), ("y", .href 0)]]

/-- The same graph without sharing: two distinct empty objects. -/
def heapC2sep : Heap :=
  [.hobj 0 [], .hobj 0 [], .hobj 0 [("x", .href 0), ("y", .href 1)]]

/-- A genuinely cyclic heap: the object at address 0 references itself. -/
def heapC2cyc : Heap :=
  [.hobj 0 [("self", .href 0)]]

/-- C2 evaluation at the failing input: stringify of the acyclic root with
two sibling references to the same object throws the circular-structure
error, while the identical shape with two distinct objects succeeds — the
seen set is call-scoped, not path-scoped (a genuine self-cycle also
throws, as the claim correctly states). -/
theorem c2_shared_sibling_throws :
    processValueH envC2 heapC2 10 [] 0 none none (.href 1) =
      some (.error circularMsg) ∧
    processValueH envC2 heapC2sep 10 [] 0 none none (.href 2) =
      some (.ok (.jobj 0 [("x", .jobj 0 []), ("y", .jobj 0 [])], [1, 0, 2])) ∧
    processValueH envC2 heapC2cyc 10 [] 0 none none (.href 0) =
      some (.error circularMsg) := by
  refine ⟨?_, ?_, ?_⟩
  · simp [envC2, heapC2, processValueH, processFieldsH, processListH,
      propLookup, classLookup, tagBase, mapGet, Env.classMap, Env.cname,
      Env.classDesc, setKey, List.lookup, List.getD]
  · simp [envC2, heapC2sep, processValueH, processFieldsH, processListH,
      propLookup, classLookup, tagBase, mapGet, Env.classMap, Env.cname,
      Env.classDesc, setKey, List.lookup, List.getD]
  · simp [envC2, heapC2cyc, processValueH, processFieldsH, processListH,
      propLookup, classLookup, tagBase, mapGet, Env.classMap, Env.cname,
      Env.classDesc, setKey, List.lookup, List.getD]

/-! ### Claim C9: the reviver pass

When a reviver is supplied, the source (parse, lines 283-288) runs
`result = JSON.parse(JSON.stringify(result), reviverWrapper)`: the
reconstructed tree is serialized by the NATIVE `JSON.stringify` (which
knows nothing of codecs or tags: it keeps own enumerable properties and
drops class identity) and reparsed by the native `JSON.parse` with the
reviver.  The native collaborators are modelled below for non-deleting
revivers (the model has no `undefined`). -/

mutual
/-- Native `JSON.stringify` of a value tree: class identity is dropped
(every object comes back as a plain object), fields and array elements
are kept. -/
def jsonFlatten (oc : ClassId) : JVal → JVal
  | .jnull => .jnull
  | .jbool b => .jbool b
  | .jnum n => .jnum n
  | .jstr s => .jstr s
  | .jarr es => .jarr (jsonFlattenList oc es)
  | .jobj _ fs => .jobj oc (jsonFlattenFields oc fs)
termination_by v => sizeOf v

def jsonFlattenList (oc : ClassId) : List JVal → List JVal
  | [] => []
  | v :: rest => jsonFlatten oc v :: jsonFlattenList oc rest
termination_by l => sizeOf l

def jsonFlattenFields (oc : ClassId) :
    List (String × JVal) → List (String × JVal)
  | [] => []
  | (s, v) :: rest => (s, jsonFlatten oc v) :: jsonFlattenFields oc rest
termination_by l => sizeOf l
end

mutual
/-- Native `JSON.parse` reviver semantics (non-deleting revivers): the
transform is applied bottom-up, each value under its key, array elements
under their stringified index, the root under the empty key. -/
def jsonRevive (r : String → JVal → JVal) (key : String) : JVal → JVal
  | .jarr es => r key (.jarr (jsonReviveList r 0 es))
  | .jobj c fs => r key (.jobj c (jsonReviveFields r fs))
  | v => r key v
termination_by v => sizeOf v

def jsonReviveList (r : String → JVal → JVal) (i : Nat) :
    List JVal → List JVal
  | [] => []
  | v :: rest => jsonRevive r (toString i) v :: jsonReviveList r (i + 1) rest
termination_by l => sizeOf l

def jsonReviveFields (r : String → JVal → JVal) :
    List (String × JVal) → List (String × JVal)
  | [] => []
  | (s, v) :: rest => (s, jsonRevive r s v) :: jsonReviveFields r rest
termination_by l => sizeOf l
end

/-- The codec method `parse` with an optional reviver: the walk result is
returned as is without one; with one, the result is piped through the
native stringify/parse pair with the reviver (source lines 283-288). -/
def parseWithReviver (env : Env) (k : CodecId) (v : JVal)
    (r : Option (String → JVal → JVal)) : Except PErr JVal :=
  match parseObject env k none none v with
  | .error e => .error e
  | .ok res =>
    match r with
    | none => .ok res
    | some rv => .ok (jsonRevive rv "" (jsonFlatten env.objectClass res))

/-- C9 evaluation: parsing a tagged Shape document with the identity
reviver returns a plain object (class identity lost by the native
round trip through `JSON.stringify`/`JSON.parse`), while the same parse
without a reviver returns the Shape instance — the reviver pass does not
preserve reconstructed instances. -/
theorem c9_reviver_flattens :
    parseWithReviver envC1x 0
      (.jobj 1 [("_type", .jstr "Shape")])
      (some (fun _ v => v)) = .ok (.jobj 1 []) ∧
    parseWithReviver envC1x 0
      (.jobj 1 [("_type", .jstr "Shape")]) none = .ok (.jobj 0 []) ∧
    (Except.ok (JVal.jobj 1 []) : Except PErr JVal) ≠ .ok (.jobj 0 []) := by
  have h1 : parseObject envC1x 0 none none
      (.jobj 1 [("_type", .jstr "Shape")]) = .ok (.jobj 0 []) := by
    simp [envC1x, parseObject, parseFields, propLookup, classDelegByName,
      nameMatches, tagOf, truthyTag, truthy, tagClassLookup, mapGet,
      Env.classMap, Env.cname, Env.classDesc, List.lookup]
  have h2 : jsonFlatten envC1x.objectClass (JVal.jobj 0 []) = .jobj 1 [] := by
    simp [jsonFlatten, jsonFlattenFields, envC1x]
  have h3 : jsonRevive (fun _ v => v) "" (JVal.jobj 1 []) = .jobj 1 [] := by
    simp [jsonRevive, jsonReviveFields]
  refine ⟨?_, ?_, by simp⟩
  · simp only [parseWithReviver, h1]
    rw [h2, h3]
  · simp only [parseWithReviver, h1]

end JSONCodec
